import Mathlib

/-!
# Verification of the 24-game multiplayer app

Shallow embedding of the game logic of a React/Firebase implementation of the
24 card game.  The repository ships one source file containing two versions of
the app component, separated by a document marker:

* version A (lines 1-1258 of the file): the current component, with input
  validation, a `scoreHistory` score-restore on join and no capacity check;
* version B (lines 1259-2393): the earlier component, with a `playerLimit`
  capacity check on join and no score restore.

The two versions share the solver (`canMake24`), the generator
(`generateCards`), the fraction formatter (`toFraction`), the local move
engine (`combineCards` / `undoLastMove`) and the round logic
(`checkAndStartNextRound` / `startNewRound`), which are embedded once.  Where
the versions differ (`joinRoom`) both are embedded, in namespaces `AppA` and
`AppB`.

Modelling conventions:
* JavaScript numbers (IEEE float64) are modelled as exact rationals `ℚ`;
  the literals `0.001` and `1.0E-6` become `1/1000` and `1/1000000`.
* `Number.toString` rendering of a number is an opaque parameter
  `toStr : ℚ → String` of the move engine; no claim depends on its value.
* Firebase records are Lean structures; an object keyed by id is an
  association list.  A Firebase `update` call is modelled as a pure function
  from the pre-state of the store to its post-state.
* `Math.random()`-driven draws are an explicit stream parameter.
* The do-while loop of `toFraction` is modelled with explicit fuel
  (`none` = the loop has not exited within the given number of iterations),
  plus an inductive termination predicate.
* UI-only state (status message text, timers, clipboard, rendering) is not
  modelled.
-/

set_option maxRecDepth 100000
set_option maxHeartbeats 4000000

/-- `const EPSILON = 0.001` — win/solver tolerance. -/
def EPSILON : ℚ := 1/1000

/-- `const MAX_CARD_GENERATION_ATTEMPTS = 100`. -/
def MAX_CARD_GENERATION_ATTEMPTS : Nat := 100

/-- A playing card or a derived result card.  `value` is present (`some`) on
derived cards and absent (`none`, i.e. `undefined`) on original cards. -/
structure Card where
  rank : String
  suit : Option String
  id : String
  isOriginal : Bool
  value : Option ℚ := none
deriving DecidableEq, Repr

/-- `const CARD_VALUES = { 'A': 1, ..., 'K': 13 }`. -/
def CARD_VALUES : List (String × ℚ) :=
  [("A", 1), ("2", 2), ("3", 3), ("4", 4), ("5", 5), ("6", 6), ("7", 7),
   ("8", 8), ("9", 9), ("10", 10), ("J", 11), ("Q", 12), ("K", 13)]

/-- `const CARD_NAMES = ['A', ..., 'K']`. -/
def CARD_NAMES : List String :=
  ["A", "2", "3", "4", "5", "6", "7", "8", "9", "10", "J", "Q", "K"]

/-- `const SUITS = ['♠', '♥', '♦', '♣']`. -/
def SUITS : List String := ["♠", "♥", "♦", "♣"]

/-- Digits of a decimal prefix of a character list. -/
def takeDigits (cs : List Char) : List Char × List Char :=
  (cs.takeWhile Char.isDigit, cs.dropWhile Char.isDigit)

/-- Numeric value of a digit string. -/
def digitsToNat (ds : List Char) : Nat :=
  ds.foldl (fun a c => 10 * a + (c.toNat - 48)) 0

/-- Model of JavaScript `parseFloat`, restricted to an optional sign followed
by decimal digits with an optional fractional part (the only shapes the app
can produce; exponents are not modelled).  `parseFloat` of a string with no
leading numeric prefix is `NaN` in JavaScript; that case is modelled as `0`
and is unreachable from game states (original ranks are always in
`CARD_VALUES`, derived cards always carry a `value`). -/
def parseFloat (str : String) : ℚ :=
  let cs := str.toList
  let signAndRest : ℚ × List Char :=
    match cs with
    | '-' :: rest => (-1, rest)
    | '+' :: rest => (1, rest)
    | _ => (1, cs)
  let intPart := takeDigits signAndRest.2
  let fracPart : List Char :=
    match intPart.2 with
    | '.' :: rest => (takeDigits rest).1
    | _ => []
  if intPart.1 = [] ∧ fracPart = [] then 0
  else
    signAndRest.1 *
      ((digitsToNat intPart.1 : ℚ) + (digitsToNat fracPart : ℚ) / 10 ^ fracPart.length)

/-- `CARD_VALUES[rank] || parseFloat(rank)`.  Every mapped value is nonzero,
so the JavaScript falsy-fallback agrees with an `Option` lookup. -/
def cardNumericValue (rank : String) : ℚ :=
  match CARD_VALUES.lookup rank with
  | some v => v
  | none => parseFloat rank

/-- `numbers.filter((_, idx) => idx !== i && idx !== j)` — the list with the
elements at positions `i` and `j` removed. -/
def removeTwo (l : List ℚ) (i j : Nat) : List ℚ :=
  (l.enum.filter fun p => p.1 ≠ i ∧ p.1 ≠ j).map Prod.snd

/-- The candidate results `[a+b, a-b, a*b, b !== 0 ? a/b : null]` of one
reduction step, with the `null` (division by zero) entry skipped. -/
def candidateResults (a b : ℚ) : List ℚ :=
  [a + b, a - b, a * b] ++ (if b ≠ 0 then [a / b] else [])

/-- The recursive `solve(numbers)` search inside `canMake24`.  The source
recursion terminates because every step shortens the list by one; the `fuel`
argument makes that measure explicit (callers pass the list length). -/
def solve : Nat → List ℚ → Bool
  | 0, _ => false
  | _ + 1, [x] => |x - 24| < EPSILON
  | fuel + 1, numbers =>
    (List.range numbers.length).any fun i =>
      (List.range numbers.length).any fun j =>
        (i != j) &&
          ((candidateResults (numbers.getD i 0) (numbers.getD j 0)).any fun r =>
            solve fuel (removeTwo numbers i j ++ [r]))

/-- `canMake24(cards)` — the 24-game solver over a hand of cards. -/
def canMake24 (cards : List Card) : Bool :=
  let nums := cards.map fun c => cardNumericValue c.rank
  solve nums.length nums

/-- Specification-level counterpart of the solver, following the spec's words:
some sequence of binary operations (`+`, `-`, `*`, and `/` with nonzero
divisor) over some ordered pair of the values, reducing the list until a
single value within `EPSILON` of 24 remains. -/
inductive Reaches24 : List ℚ → Prop where
  | base (x : ℚ) : |x - 24| < EPSILON → Reaches24 [x]
  | step (l : List ℚ) (i j : Nat) (r : ℚ) :
      i < l.length → j < l.length → i ≠ j →
      r ∈ candidateResults (l.getD i 0) (l.getD j 0) →
      Reaches24 (removeTwo l i j ++ [r]) →
      Reaches24 l

/-- One random draw for one card: an index into `CARD_NAMES` and an index
into `SUITS` (`Math.floor(Math.random() * 13)` / `* 4`). -/
structure Draw where
  rankIdx : Fin 13
  suitIdx : Fin 4
deriving DecidableEq

/-- The card built from one draw (`i` is the position in the hand, `now`
stands for `Date.now()`). -/
def drawCard (now : Nat) (i : Nat) (d : Draw) : Card :=
  let rank := CARD_NAMES.getD d.rankIdx.val "A"
  let suit := SUITS.getD d.suitIdx.val "♠"
  { rank := rank, suit := some suit,
    id := rank ++ "-" ++ suit ++ "-" ++ toString now ++ "-" ++ toString i,
    isOriginal := true }

/-- The fixed fallback hand returned after 100 failed attempts. -/
def FALLBACK_CARDS : List Card :=
  [{ rank := "3", suit := some "♠", id := "3-♠-0", isOriginal := true },
   { rank := "3", suit := some "♥", id := "3-♥-1", isOriginal := true },
   { rank := "8", suit := some "♦", id := "8-♦-2", isOriginal := true },
   { rank := "8", suit := some "♣", id := "8-♣-3", isOriginal := true }]

/-- The retry loop of `generateCards`: `draws attempt k` is the random draw
for card `k` of attempt number `attempt`. -/
def generateCardsLoop (now : Nat) (draws : Nat → Fin 4 → Draw) :
    Nat → Nat → List Card
  | _, 0 => FALLBACK_CARDS
  | attempt, fuel + 1 =>
    let cards :=
      [drawCard now 0 (draws attempt 0), drawCard now 1 (draws attempt 1),
       drawCard now 2 (draws attempt 2), drawCard now 3 (draws attempt 3)]
    if canMake24 cards then cards
    else generateCardsLoop now draws (attempt + 1) fuel

/-- `generateCards()` — draws 4 random cards, retrying up to
`MAX_CARD_GENERATION_ATTEMPTS` times until the solver accepts, with the fixed
fallback on exhaustion. -/
def generateCards (now : Nat) (draws : Nat → Fin 4 → Draw) : List Card :=
  generateCardsLoop now draws 0 MAX_CARD_GENERATION_ATTEMPTS

/-! ## Fraction helper (`toFraction`) -/

/-- `const tolerance = 1.0E-6` in `toFraction`. -/
def TOLERANCE : ℚ := 1/1000000

/-- The mutable locals of `toFraction`: the convergent accumulators
`h1 h2 k1 k2` (integer-valued JavaScript numbers) and the current complete
quotient `b`. -/
structure FracState where
  h1 : ℤ
  h2 : ℤ
  k1 : ℤ
  k2 : ℤ
  b : ℚ
deriving DecidableEq

/-- One iteration of the do-while body of `toFraction`.  When `b` is an
integer the JavaScript `b = 1/(b - a)` produces `Infinity`; in `ℚ` the
division by zero yields `0`.  For positive inputs this mismatch is harmless:
the loop exits at the end of exactly that iteration, so the new `b` is never
read (proved below). -/
def fracStep (s : FracState) : FracState :=
  let a : ℤ := ⌊s.b⌋
  { h1 := a * s.h1 + s.h2, h2 := s.h1,
    k1 := a * s.k1 + s.k2, k2 := s.k1,
    b := 1 / (s.b - a) }

/-- The while-condition `Math.abs(decimal - h1 / k1) > decimal * tolerance`
(true = keep looping). -/
def fracContinue (decimal : ℚ) (s : FracState) : Bool :=
  |decimal - (s.h1 : ℚ) / (s.k1 : ℚ)| > decimal * TOLERANCE

/-- The do-while loop of `toFraction`, with fuel: `none` means the loop has
not exited within `fuel` iterations. -/
def toFractionLoop (decimal : ℚ) : Nat → FracState → Option (ℤ × ℤ)
  | 0, _ => none
  | fuel + 1, s =>
    let s' := fracStep s
    if fracContinue decimal s' then toFractionLoop decimal fuel s'
    else some (s'.h1, s'.k1)

/-- The initial state `h1 = 1, h2 = 0, k1 = 0, k2 = 1, b = decimal`. -/
def toFractionInit (decimal : ℚ) : FracState :=
  { h1 := 1, h2 := 0, k1 := 0, k2 := 1, b := decimal }

/-- `toFraction(decimal)`, returning `some (numerator, denominator)` if the
do-while loop exits within `fuel` iterations. -/
def toFraction (fuel : Nat) (decimal : ℚ) : Option (ℤ × ℤ) :=
  toFractionLoop decimal fuel (toFractionInit decimal)

/-- Termination of the do-while loop of `toFraction` from a given state:
either the condition fails after the next body execution, or it holds and the
loop terminates from the stepped state. -/
inductive ToFractionTerminates (decimal : ℚ) : FracState → Prop where
  | exit (s : FracState) :
      fracContinue decimal (fracStep s) = false → ToFractionTerminates decimal s
  | next (s : FracState) :
      fracContinue decimal (fracStep s) = true →
      ToFractionTerminates decimal (fracStep s) →
      ToFractionTerminates decimal s

/-! ## Local move engine (`combineCards`, `undoLastMove`) -/

/-- `gameMode` — `'single'` or `'multi'` (version A; version B is
multiplayer-only and behaves like `multi`). -/
inductive GameMode where
  | single
  | multi
deriving DecidableEq, Repr

/-- The per-client local state touched by `combineCards` / `undoLastMove`:
the board `cards`, the `moveHistory` strings, the undo stack `cardHistory`
(saved `{cards, moveHistory}` pairs, last element on top), the current
selection, the locally observed `winner`, the `iWon` flag and the
single-player score.  UI-only state (message text, timers) is not modelled. -/
@[ext]
structure EngineState where
  gameMode : GameMode
  playerId : String
  cards : List Card
  originalCards : List Card
  moveHistory : List String
  cardHistory : List (List Card × List String)
  selectedCard : Option Card
  selectedOperation : Option String
  winner : Option String
  iWon : Bool
  singlePlayerScore : Nat
deriving DecidableEq

/-- Outcome of one `combineCards` call (the source reports these through an
early `return` plus a status message). -/
inductive CombineOutcome where
  | invalidMove
  | divisionByZero
  | unknownOperation
  | ok
deriving DecidableEq, Repr

/-- `card.value !== undefined ? card.value : (CARD_VALUES[card.rank] ||
parseFloat(card.rank))`. -/
def cardValue (c : Card) : ℚ :=
  match c.value with
  | some v => v
  | none => cardNumericValue c.rank

/-- `newCards[0].value || CARD_VALUES[rank] || parseFloat(rank)` — the first
`||` is a JavaScript falsy test, so a stored value of `0` falls through to
the rank lookup. -/
def jsValueOrRank (c : Card) : ℚ :=
  match c.value with
  | some v => if v = 0 then cardNumericValue c.rank else v
  | none => cardNumericValue c.rank

/-- Fuel sufficient for the `toFraction` loop on a positive input: one more
than the numerator of the fractional part, which strictly decreases across
iterations (proved below). -/
def toFractionFuel (decimal : ℚ) : Nat :=
  (Int.fract decimal).num.toNat + 1

/-- The display string of a non-integer division result:
`frac.numerator + "/" + frac.denominator` with `frac = toFraction(result)`.
Fuel `toFractionFuel q` suffices whenever `q > 0` (proved below); for a
negative `q` the JavaScript loop escapes through `Infinity`, rendered here by
the sentinel the browser would print. -/
def fractionDisplay (q : ℚ) : String :=
  match toFraction (toFractionFuel q) q with
  | some (n, d) => toString n ++ "/" ++ toString d
  | none => "-Infinity/Infinity"

/-- Card shown in a move-history entry:
`card.isOriginal ? card.rank + card.suit : card.rank`. -/
def cardDisplay (c : Card) : String :=
  if c.isOriginal then c.rank ++ c.suit.getD "" else c.rank

/-- The tail of `combineCards` after the result and its display string have
been computed: push the undo entry, replace the two consumed cards by the
derived card, append the move record, clear the selection, and run the win
check when one card remains. -/
def combineCommit (now : Nat) (card1 card2 : Card) (operation : String)
    (result : ℚ) (displayValue : String) (s : EngineState) : EngineState :=
  let s1 := { s with cardHistory := s.cardHistory ++ [(s.cards, s.moveHistory)] }
  let newCard : Card :=
    { rank := displayValue, suit := none, id := "result-" ++ toString now,
      isOriginal := false, value := some result }
  let newCards :=
    (s.cards.filter fun c => c.id ≠ card1.id ∧ c.id ≠ card2.id) ++ [newCard]
  let newMoveHistory :=
    s.moveHistory ++
      [cardDisplay card1 ++ " " ++ operation ++ " " ++ cardDisplay card2 ++
        " = " ++ displayValue]
  let base := { s1 with cards := newCards,
                        moveHistory := newMoveHistory,
                        selectedCard := none,
                        selectedOperation := none }
  if newCards.length = 1 then
    -- `newCards[0]`; the list is never empty since `newCard` was pushed
    let finalValue := jsValueOrRank (newCards.headD newCard)
    if |finalValue - 24| < EPSILON then
      match s.gameMode with
      | .single =>
        { base with winner := some s.playerId,
                    iWon := true,
                    singlePlayerScore := s.singlePlayerScore + 1 }
      | .multi =>
        if s.winner = none then { base with iWon := true }
        else base
    else base
  else base

/-- `combineCards(card1, card2, operation)` (identical local logic in both
versions).  `toStr` stands for JavaScript number rendering
(`result.toString()`) and `now` for `Date.now()`.  The remote write of the
multiplayer win branch is modelled separately by `claimWinAttempt`; here only
its local effect (`setIWon(true)`, taken on its success path) appears. -/
def combineCards (toStr : ℚ → String) (now : Nat) (card1 card2 : Card)
    (operation : String) (s : EngineState) : EngineState × CombineOutcome :=
  if card1.id = card2.id then (s, .invalidMove)
  else
    let val1 := cardValue card1
    let val2 := cardValue card2
    match operation with
    | "+" =>
      (combineCommit now card1 card2 operation (val1 + val2)
        (toStr (val1 + val2)) s, .ok)
    | "-" =>
      (combineCommit now card1 card2 operation (val1 - val2)
        (toStr (val1 - val2)) s, .ok)
    | "*" =>
      (combineCommit now card1 card2 operation (val1 * val2)
        (toStr (val1 * val2)) s, .ok)
    | "/" =>
      if val2 = 0 then
        -- `Cannot divide by zero!`: selection cleared, nothing else mutated
        ({ s with selectedCard := none, selectedOperation := none },
         .divisionByZero)
      else
        let result := val1 / val2
        -- `Number.isInteger(result)` decides between plain and fraction display
        let displayValue :=
          if result.den = 1 then toStr result else fractionDisplay result
        (combineCommit now card1 card2 operation result displayValue s, .ok)
    | _ => (s, .unknownOperation)

/-- `undoLastMove()`: no-op when the undo stack is empty or `iWon` is set;
otherwise restores the saved `{cards, moveHistory}` pair from the top of the
stack, pops it and clears the selection. -/
def undoLastMove (s : EngineState) : EngineState :=
  if s.iWon then s
  else
    match s.cardHistory.getLast? with
    | none => s
    | some last =>
      { s with cards := last.1,
               moveHistory := last.2,
               cardHistory := s.cardHistory.dropLast,
               selectedCard := none,
               selectedOperation := none }

/-- Iterated `undoLastMove`. -/
def undoN : Nat → EngineState → EngineState
  | 0, s => s
  | n + 1, s => undoLastMove (undoN n s)

/-- One queued `combineCards` invocation (the two card arguments, the
operation, and the `Date.now()` value of the call). -/
structure CombineStep where
  card1 : Card
  card2 : Card
  operation : String
  now : Nat
deriving DecidableEq

/-- Runs a sequence of `combineCards` calls, requiring every call to succeed
(`some` of the final state); `none` as soon as one call fails. -/
def runCombines (toStr : ℚ → String) : List CombineStep → EngineState → Option EngineState
  | [], s => some s
  | st :: rest, s =>
    match combineCards toStr st.now st.card1 st.card2 st.operation s with
    | (s', .ok) => runCombines toStr rest s'
    | _ => none

/-- The local engine state at the start of a round: the round's cards, empty
histories, no selection, no winner observed, `iWon` false. -/
def initialEngineState (mode : GameMode) (playerId : String) (cards : List Card) :
    EngineState :=
  { gameMode := mode, playerId := playerId, cards := cards,
    originalCards := cards, moveHistory := [], cardHistory := [],
    selectedCard := none, selectedOperation := none, winner := none,
    iWon := false, singlePlayerScore := 0 }

/-! ## Shared room record and multiplayer operations -/

/-- One entry of the `players` object. -/
structure Player where
  id : String
  name : String
  score : Nat
  ready : Bool
  sittingOut : Bool
  joinedAt : Nat
deriving DecidableEq, Repr

/-- The shared `rooms/{roomId}` record.  `players` and `scoreHistory` are
objects keyed by player id / player name, modelled as association lists.
`playerLimit` is written by the version-B `createRoom` only, hence optional:
reading it from a version-A room yields `undefined` (`none`). -/
structure Room where
  host : String
  playerLimit : Option Nat
  players : List (String × Player)
  originalCards : List Card
  gameStarted : Bool
  winner : Option String
  winTime : Option Nat
  roundNumber : Nat
  clocked : Bool
  scoreHistory : List (String × Nat)
  createdAt : Nat
deriving DecidableEq

/-- `Object.values(roomData.players).filter(p => !p.sittingOut)`. -/
def activePlayers (room : Room) : List Player :=
  (room.players.map Prod.snd).filter fun p => !p.sittingOut

/-- The single combined `update(...)` object committed by `startNewRound`:
fresh cards, `winner: null`, `clocked: false`, the new round number, and a
`players/{pid}/ready = false` path for every key of `players`. -/
structure RoundUpdate where
  originalCards : List Card
  winner : Option String
  clocked : Bool
  roundNumber : Nat
  readyReset : List String
deriving DecidableEq

/-- `startNewRound()` (as inlined in version B's `checkAndStartNextRound`
and as the helper of version A): builds the combined update from the locally
observed room data.  `(roomData.roundNumber || 1) + 1` treats a falsy (0)
round number as 1. -/
def startNewRound (room : Room) (newCards : List Card) : RoundUpdate :=
  { originalCards := newCards, winner := none, clocked := false,
    roundNumber := (if room.roundNumber = 0 then 1 else room.roundNumber) + 1,
    readyReset := room.players.map Prod.fst }

/-- `checkAndStartNextRound()`: from the locally observed `roomData` and this
client's `playerId`, commit `startNewRound` exactly when every active player
is ready, at least one active player exists, and this client is the host.
`newCards` stands for the `generateCards()` output of the host. -/
def checkAndStartNextRound (room : Room) (playerId : String)
    (newCards : List Card) : Option RoundUpdate :=
  let active := activePlayers room
  let readyCount := (active.filter fun p => p.ready).length
  if readyCount = active.length ∧ active.length > 0 ∧ room.host = playerId then
    some (startNewRound room newCards)
  else none

/-- Effect of a committed `RoundUpdate` on the store record. -/
def applyRoundUpdate (room : Room) (u : RoundUpdate) : Room :=
  { room with originalCards := u.originalCards,
              winner := u.winner,
              clocked := u.clocked,
              roundNumber := u.roundNumber,
              players := room.players.map fun e =>
                if e.1 ∈ u.readyReset then (e.1, { e.2 with ready := false }) else e }

/-- `roomData.players[playerId]?.score || 0`. -/
def playerScoreOf (players : List (String × Player)) (pid : String) : Nat :=
  match players.lookup pid with
  | some p => p.score
  | none => 0

/-- Write `players/{pid}/score = score` into the players object. -/
def setPlayerScore (players : List (String × Player)) (pid : String)
    (score : Nat) : List (String × Player) :=
  players.map fun e => if e.1 = pid then (e.1, { e.2 with score := score }) else e

/-- The multiplayer win branch of `combineCards` (identical in both versions
up to error reporting): guarded only by the locally observed `winner` state,
it issues a plain (unconditional) `update(...)` setting `winner`, `winTime`
and this player's score computed from the local `roomData` snapshot.  There
is no conditional write: the function maps the store's pre-state to its
post-state whenever the local guard passes, whatever the store holds. -/
def claimWinAttempt (snapshot : Room) (observedWinner : Option String)
    (pid : String) (now : Nat) (store : Room) : Room :=
  if observedWinner = none then
    let newScore := playerScoreOf snapshot.players pid + 1
    { store with winner := some pid,
                 winTime := some now,
                 players := setPlayerScore store.players pid newScore }
  else store

/-- Errors a `joinRoom` call can report (via an alert / status message). -/
inductive JoinError where
  | roomNotFound
  | roomFull
deriving DecidableEq, Repr

/-- The `update(roomRef, ...)` object a successful join writes: the new
player record under `players/{playerId}`, plus `gameStarted: true`. -/
structure JoinUpdate where
  playerKey : String
  player : Player
  gameStarted : Bool
deriving DecidableEq, Repr

deriving instance DecidableEq for Except

/-- Write the join update into the room record: insert-or-replace the player
entry and set `gameStarted`. -/
def applyJoinUpdate (room : Room) (u : JoinUpdate) : Room :=
  { room with players :=
                if (room.players.lookup u.playerKey).isSome then
                  room.players.map fun e =>
                    if e.1 = u.playerKey then (e.1, u.player) else e
                else room.players ++ [(u.playerKey, u.player)],
              gameStarted := u.gameStarted }

namespace AppA

/-- Version A `joinRoom` (source lines 453-502), after name/room-code
validation: fails `RoomNotFound` on an absent record; otherwise writes the
player (restoring `data.scoreHistory?.[name] || 0` as the score) together
with `gameStarted: true`.  There is no capacity check in this version. -/
def joinRoom (record : Option Room) (playerId name : String) (now : Nat) :
    Except JoinError JoinUpdate :=
  match record with
  | none => .error .roomNotFound
  | some data =>
    let previousScore := (data.scoreHistory.lookup name).getD 0
    .ok { playerKey := playerId,
          player := { id := playerId, name := name, score := previousScore,
                      ready := false, sittingOut := false, joinedAt := now },
          gameStarted := true }

end AppA

namespace AppB

/-- Version B `joinRoom` (source lines 1598-1641): fails `RoomNotFound` on an
absent record; fails `RoomFull` when `Object.keys(data.players || {}).length
>= data.playerLimit` (all players counted, sitting-out included; a JavaScript
comparison against an `undefined` limit is false); otherwise writes the
player with `score: 0` (no score restore in this version) together with
`gameStarted: true`. -/
def joinRoom (record : Option Room) (playerId name : String) (now : Nat) :
    Except JoinError JoinUpdate :=
  match record with
  | none => .error .roomNotFound
  | some data =>
    let playerCount := data.players.length
    let isFull : Bool :=
      match data.playerLimit with
      | some limit => playerCount ≥ limit
      | none => false
    if isFull then .error .roomFull
    else
      .ok { playerKey := playerId,
            player := { id := playerId, name := name, score := 0,
                        ready := false, sittingOut := false, joinedAt := now },
            gameStarted := true }

end AppB

/-! ## Claim-level predicates and proof fixtures -/

/-- The guard mechanism asserted by the spec for round advancement: a commit
computed from an observed snapshot whose `roundNumber` no longer matches the
store is rejected (leaves the store unchanged). -/
def RoundCommitGuardedByRoundNumber : Prop :=
  ∀ (snapshot store : Room) (playerId : String) (newCards : List Card)
    (u : RoundUpdate),
    checkAndStartNextRound snapshot playerId newCards = some u →
    snapshot.roundNumber ≠ store.roundNumber →
    applyRoundUpdate store u = store

/-- Invariant of the `toFraction` loop state: positive complete quotient `b`,
the convergent identity relating `(h1, h2, k1, k2)` and `b` to the input, and
a clause pinning the `k`-accumulators (initial shape, or `k1 ≥ 1` once an
iteration has run, in which case also `b ≥ 1`). -/
def fracInv (decimal : ℚ) (s : FracState) : Prop :=
  0 < s.b ∧
  decimal * ((s.k1 : ℚ) * s.b + (s.k2 : ℚ)) = (s.h1 : ℚ) * s.b + (s.h2 : ℚ) ∧
  ((s.k1 = 0 ∧ s.k2 = 1) ∨ (1 ≤ s.k1 ∧ 0 ≤ s.k2 ∧ 1 ≤ s.b))

/-- Fixture: a player record for concrete test rooms. -/
def basicPlayer (pid : String) (ready sittingOut : Bool) (score : Nat) : Player :=
  { id := pid, name := pid, score := score, ready := ready,
    sittingOut := sittingOut, joinedAt := 0 }

/-- Fixture: a two-player room, both active with score 0, no winner. -/
def roomC1 : Room :=
  { host := "p1", playerLimit := none,
    players := [("p1", basicPlayer "p1" false false 0),
                ("p2", basicPlayer "p2" false false 0)],
    originalCards := [], gameStarted := true, winner := none, winTime := none,
    roundNumber := 1, clocked := false, scoreHistory := [], createdAt := 0 }

/-- Fixture: a room whose two active players are both ready, host `"h"`. -/
def roomReady : Room :=
  { host := "h", playerLimit := none,
    players := [("h", basicPlayer "h" true false 3),
                ("g", basicPlayer "g" true false 1)],
    originalCards := [], gameStarted := true, winner := some "g",
    winTime := some 7, roundNumber := 1, clocked := true, scoreHistory := [],
    createdAt := 0 }

/-- Fixture: the store after the round advanced past `roomReady`'s snapshot
(`roundNumber` 2, ready flags cleared). -/
def roomAdvanced : Room :=
  { roomReady with roundNumber := 2,
                   players := [("h", basicPlayer "h" false false 3),
                               ("g", basicPlayer "g" false false 1)] }

/-- Fixture: a version-B room at its capacity 2 only because both players are
sitting out; `scoreHistory` knows `"carol"`. -/
def roomC5full : Room :=
  { host := "a", playerLimit := some 2,
    players := [("a", basicPlayer "a" false true 0),
                ("b", basicPlayer "b" false true 0)],
    originalCards := [], gameStarted := true, winner := none, winTime := none,
    roundNumber := 1, clocked := false, scoreHistory := [("carol", 5)],
    createdAt := 0 }

/-- Fixture: a room with 2 active players and capacity 2 (at the bound). -/
def roomC5active : Room :=
  { roomC5full with players := [("a", basicPlayer "a" false false 0),
                                ("b", basicPlayer "b" false false 0)] }

/-- Fixture: opaque number rendering for concrete engine runs. -/
def toStrX : ℚ → String := fun _ => "x"

/-- Fixture: four original cards worth 1, 2, 3, 4. -/
def cardsC9 : List Card :=
  [{ rank := "A", suit := some "♠", id := "a", isOriginal := true },
   { rank := "2", suit := some "♠", id := "b", isOriginal := true },
   { rank := "3", suit := some "♠", id := "c", isOriginal := true },
   { rank := "4", suit := some "♠", id := "d", isOriginal := true }]

/-- Fixture: the derived card `combineCards` builds under `toStrX` with
`now = 0` and numeric result `v`. -/
def resultCardC9 (v : ℚ) : Card :=
  { rank := "x", suit := none, id := "result-0", isOriginal := false,
    value := some v }

/-- Fixture: three successful combines over `cardsC9` reaching 24:
`1 + 2 = 3`, `3 + 3 = 6`, `6 * 4 = 24`. -/
def stepsC9 : List CombineStep :=
  [{ card1 := { rank := "A", suit := some "♠", id := "a", isOriginal := true },
     card2 := { rank := "2", suit := some "♠", id := "b", isOriginal := true },
     operation := "+", now := 0 },
   { card1 := resultCardC9 3,
     card2 := { rank := "3", suit := some "♠", id := "c", isOriginal := true },
     operation := "+", now := 0 },
   { card1 := resultCardC9 6,
     card2 := { rank := "4", suit := some "♠", id := "d", isOriginal := true },
     operation := "*", now := 0 }]

/-- Fixture: the engine state after the single combine `1 + 2 = 3` over
`cardsC9` (under `toStrX`, `now = 0`). -/
def sAfterOne : EngineState :=
  { gameMode := .single, playerId := "p",
    cards := [{ rank := "3", suit := some "♠", id := "c", isOriginal := true },
              { rank := "4", suit := some "♠", id := "d", isOriginal := true },
              resultCardC9 3],
    originalCards := cardsC9,
    moveHistory := ["A♠ + 2♠ = x"],
    cardHistory := [(cardsC9, [])],
    selectedCard := none, selectedOperation := none, winner := none,
    iWon := false, singlePlayerScore := 0 }

/-! ## General lemmas -/

theorem List.filter_length_eq_iff {α : Type} {l : List α} {p : α → Bool} :
    (l.filter p).length = l.length ↔ ∀ a ∈ l, p a = true :=
  ⟨fun h => List.filter_eq_self.mp ((l.filter_sublist).eq_of_length h),
   fun h => by rw [List.filter_eq_self.mpr h]⟩

theorem activePlayers_applyRoundUpdate_ready_false (room : Room) (u : RoundUpdate)
    (hsub : ∀ k ∈ room.players.map Prod.fst, k ∈ u.readyReset) :
    ∀ p ∈ activePlayers (applyRoundUpdate room u), p.ready = false := by
  intro p hp
  simp only [activePlayers, applyRoundUpdate, List.map_map, List.mem_filter,
    List.mem_map, Function.comp] at hp
  obtain ⟨⟨e, he, hep⟩, _⟩ := hp
  have hk : e.1 ∈ u.readyReset := hsub e.1 (List.mem_map_of_mem Prod.fst he)
  rw [if_pos hk] at hep
  simp [← hep]

theorem activePlayers_length_applyRoundUpdate (room : Room) (u : RoundUpdate) :
    (activePlayers (applyRoundUpdate room u)).length = (activePlayers room).length := by
  simp only [activePlayers, applyRoundUpdate, List.map_map]
  induction room.players with
  | nil => rfl
  | cons e rest ih =>
    simp only [List.map_cons, List.filter_cons, Function.comp]
    by_cases hk : e.1 ∈ u.readyReset
    · simp only [if_pos hk]
      by_cases hs : e.2.sittingOut <;> simp_all [Function.comp]
    · simp only [if_neg hk]
      by_cases hs : e.2.sittingOut <;> simp_all [Function.comp]

/-! ## C1 — win arbitration -/

/-- C1: the code's `claimWin` path at a concrete two-claimant race.  The
claim asserts that a conditional write against `winner == null` accepts
exactly one concurrent claim and credits exactly one claimant.  The code
guards only on the locally observed winner and then issues a plain `update`,
so when both players observed `winner == null` (here: both saw `roomC1`),
both updates are applied: the second writer ends up the recorded winner
(delivery-order dependent) and BOTH scores are incremented — the
double-credit outcome the spec says is prevented. -/
theorem claimWin_concurrent_double_credit :
    (claimWinAttempt roomC1 none "p2" 5 (claimWinAttempt roomC1 none "p1" 3 roomC1)).winner
        = some "p2" ∧
    playerScoreOf (claimWinAttempt roomC1 none "p2" 5
        (claimWinAttempt roomC1 none "p1" 3 roomC1)).players "p1" = 1 ∧
    playerScoreOf (claimWinAttempt roomC1 none "p2" 5
        (claimWinAttempt roomC1 none "p1" 3 roomC1)).players "p2" = 1 ∧
    (claimWinAttempt roomC1 none "p1" 3 roomC1).winner = some "p1" := by
  decide

/-! ## C3 — ready barrier and round advancement -/

/-- C3: `checkAndStartNextRound` commits a round update exactly when every
active (non-sitting-out) player is ready, at least one active player exists,
and the evaluating client is the host; the committed update carries the fresh
cards, `winner = null`, `clocked = false`, `roundNumber + 1`, and resets every
active player's ready flag, all in one combined write (one `RoundUpdate`
value). -/
theorem checkAndStartNextRound_spec :
    ∀ (room : Room) (playerId : String) (newCards : List Card),
      ((checkAndStartNextRound room playerId newCards).isSome = true ↔
        ((∀ p ∈ activePlayers room, p.ready = true) ∧
          activePlayers room ≠ [] ∧ room.host = playerId)) ∧
      (∀ u, checkAndStartNextRound room playerId newCards = some u →
        u.originalCards = newCards ∧ u.winner = none ∧ u.clocked = false ∧
        (1 ≤ room.roundNumber → u.roundNumber = room.roundNumber + 1) ∧
        (∀ p ∈ activePlayers (applyRoundUpdate room u), p.ready = false)) := by
  intro room playerId newCards
  constructor
  · simp only [checkAndStartNextRound]
    split
    · rename_i hcond
      obtain ⟨h1, h2, h3⟩ := hcond
      simp only [Option.isSome_some, true_iff]
      refine ⟨?_, ?_, h3⟩
      · intro p hp
        have := List.filter_length_eq_iff.mp h1 p hp
        simpa using this
      · intro hnil
        rw [hnil] at h2
        simp at h2
    · rename_i hcond
      simp only [Option.isSome_none, Bool.false_eq_true, false_iff]
      intro ⟨hall, hnil, hhost⟩
      exact hcond ⟨List.filter_length_eq_iff.mpr (fun p hp => hall p hp),
        List.length_pos.mpr hnil, hhost⟩
  · intro u hu
    have hu' : u = startNewRound room newCards := by
      simp only [checkAndStartNextRound] at hu
      split at hu
      · exact (Option.some.injEq _ _ ▸ hu).symm
      · exact absurd hu (by simp)
    subst hu'
    refine ⟨rfl, rfl, rfl, ?_, ?_⟩
    · intro h
      simp only [startNewRound]
      rw [if_neg (by omega)]
    · exact activePlayers_applyRoundUpdate_ready_false room _
        (fun k hk => by simpa [startNewRound] using hk)

/-- C3 witness: a concrete room (`roomReady`: two active ready players, host
`"h"`) where the barrier commits, with the committed fields evaluated. -/
theorem checkAndStartNextRound_spec_witness :
    checkAndStartNextRound roomReady "h" FALLBACK_CARDS
        = some (startNewRound roomReady FALLBACK_CARDS) ∧
    ((startNewRound roomReady FALLBACK_CARDS).originalCards = FALLBACK_CARDS ∧
      (startNewRound roomReady FALLBACK_CARDS).winner = none ∧
      (startNewRound roomReady FALLBACK_CARDS).clocked = false ∧
      (1 ≤ roomReady.roundNumber →
        (startNewRound roomReady FALLBACK_CARDS).roundNumber
          = roomReady.roundNumber + 1) ∧
      (∀ p ∈ activePlayers
          (applyRoundUpdate roomReady (startNewRound roomReady FALLBACK_CARDS)),
        p.ready = false)) :=
  ⟨by decide,
   (checkAndStartNextRound_spec roomReady "h" FALLBACK_CARDS).2
     (startNewRound roomReady FALLBACK_CARDS) (by decide)⟩

/-! ## C4 — idempotence of redundant round advancement -/

/-- C4 counterexample: no `roundNumber` comparison guards the commit.  A
commit computed from a stale snapshot (`roomReady`, `roundNumber` 1) is still
applied to a store that has moved on (`roomAdvanced`, `roundNumber` 2) and
changes it (it overwrites the current round's cards), refuting the claimed
guard property at this concrete input. -/
theorem roundAdvance_not_guarded : ¬ RoundCommitGuardedByRoundNumber := by
  intro h
  have h2 := h roomReady roomAdvanced "h" FALLBACK_CARDS
    (startNewRound roomReady FALLBACK_CARDS) (by decide) (by decide)
  exact absurd (congrArg Room.originalCards h2) (by decide)

/-- C4 amended: the commit is not guarded by any `roundNumber` comparison,
but each commit writes `roundNumber := observed + 1` as an absolute value, so
two redundant host triggers computed from the same observed snapshot leave
`roundNumber` at `observed + 1` (never `observed + 2`); moreover a trigger
evaluated on the committed state itself does not fire again (all ready flags
were just reset). -/
theorem checkAndStartNextRound_redundant_triggers :
    ∀ (snap : Room) (playerId : String) (cards1 cards2 : List Card)
      (store : Room) (u1 u2 : RoundUpdate),
      checkAndStartNextRound snap playerId cards1 = some u1 →
      checkAndStartNextRound snap playerId cards2 = some u2 →
      1 ≤ snap.roundNumber →
      (applyRoundUpdate (applyRoundUpdate store u1) u2).roundNumber
          = snap.roundNumber + 1 ∧
      checkAndStartNextRound (applyRoundUpdate snap u1) playerId cards2 = none := by
  intro snap playerId cards1 cards2 store u1 u2 h1 h2 hrn
  have hcond1 : ((activePlayers snap).filter fun p => p.ready).length
      = (activePlayers snap).length ∧ (activePlayers snap).length > 0 ∧
      snap.host = playerId := by
    by_contra hc
    simp only [checkAndStartNextRound, if_neg hc] at h1
    exact Option.noConfusion h1
  have hu1 : u1 = startNewRound snap cards1 := by
    simp only [checkAndStartNextRound, if_pos hcond1] at h1
    exact (Option.some.injEq _ _ ▸ h1).symm
  have hu2 : u2 = startNewRound snap cards2 := by
    simp only [checkAndStartNextRound, if_pos hcond1] at h2
    exact (Option.some.injEq _ _ ▸ h2).symm
  subst hu1; subst hu2
  constructor
  · simp only [applyRoundUpdate, startNewRound]
    rw [if_neg (by omega)]
  · have hready : ∀ p ∈ activePlayers (applyRoundUpdate snap (startNewRound snap cards1)),
        p.ready = false :=
      activePlayers_applyRoundUpdate_ready_false snap _
        (fun k hk => by simpa [startNewRound] using hk)
    have hlen : (activePlayers (applyRoundUpdate snap (startNewRound snap cards1))).length
        = (activePlayers snap).length :=
      activePlayers_length_applyRoundUpdate snap _
    simp only [checkAndStartNextRound]
    rw [if_neg]
    intro ⟨ha, hb, _⟩
    have hzero : ((activePlayers (applyRoundUpdate snap (startNewRound snap cards1))).filter
        fun p => p.ready).length = 0 := by
      rw [List.length_eq_zero]
      rw [List.filter_eq_nil_iff]
      intro p hp
      simp [hready p hp]
    rw [hzero] at ha
    rw [hlen] at ha hb
    omega

/-- C4 amended witness: the concrete double trigger over `roomReady`. -/
theorem checkAndStartNextRound_redundant_triggers_witness :
    checkAndStartNextRound roomReady "h" FALLBACK_CARDS
        = some (startNewRound roomReady FALLBACK_CARDS) ∧
    1 ≤ roomReady.roundNumber ∧
    ((applyRoundUpdate (applyRoundUpdate roomC1 (startNewRound roomReady FALLBACK_CARDS))
        (startNewRound roomReady FALLBACK_CARDS)).roundNumber
      = roomReady.roundNumber + 1 ∧
     checkAndStartNextRound
        (applyRoundUpdate roomReady (startNewRound roomReady FALLBACK_CARDS)) "h"
        FALLBACK_CARDS = none) :=
  ⟨by decide, by decide,
   checkAndStartNextRound_redundant_triggers roomReady "h" FALLBACK_CARDS
     FALLBACK_CARDS roomC1 (startNewRound roomReady FALLBACK_CARDS)
     (startNewRound roomReady FALLBACK_CARDS) (by decide) (by decide) (by decide)⟩

/-! ## C5 — joinRoom error handling -/

/-- C5 counterexample.  Against version B (`roomC5full`: capacity 2, both
players sitting out, so 0 active players, and `scoreHistory` knows `"carol"`):
the claim says the join must succeed (active count 0 < capacity 2) with
carol's score 5 restored, but the code counts ALL players (sitting-out
included) and fails `RoomFull`.  Against version A (`roomC5active`: 2 active
players at capacity 2): the claim says the join must fail `RoomFull`, but
version A has no capacity check at all and succeeds. -/
theorem joinRoom_claim_counterexample :
    AppB.joinRoom (some roomC5full) "z" "carol" 9 = .error .roomFull ∧
    (activePlayers roomC5full).length < roomC5full.playerLimit.getD 0 ∧
    (roomC5full.scoreHistory.lookup "carol").getD 0 = 5 ∧
    AppA.joinRoom (some roomC5active) "z" "dave" 9 ≠ .error .roomFull ∧
    roomC5active.playerLimit.getD 0 ≤ (activePlayers roomC5active).length := by
  decide

/-- C5 amended: both versions fail `RoomNotFound` on an absent record.
Version A never fails `RoomFull` (it has no capacity check) and on success
restores the joining player's prior score from `scoreHistory` by name
(0 when absent).  Version B fails `RoomFull` exactly when the count of ALL
players — sitting-out included — reaches `playerLimit`, and on success always
starts the player at score 0 (no restore). -/
theorem joinRoom_amended :
    ∀ (playerId name : String) (now : Nat),
      (AppA.joinRoom none playerId name now = .error .roomNotFound ∧
       AppB.joinRoom none playerId name now = .error .roomNotFound) ∧
      ∀ data : Room,
        (AppA.joinRoom (some data) playerId name now =
          .ok { playerKey := playerId,
                player := { id := playerId, name := name,
                            score := (data.scoreHistory.lookup name).getD 0,
                            ready := false, sittingOut := false, joinedAt := now },
                gameStarted := true }) ∧
        (AppB.joinRoom (some data) playerId name now = .error .roomFull ↔
          ∃ limit, data.playerLimit = some limit ∧ limit ≤ data.players.length) ∧
        (∀ u, AppB.joinRoom (some data) playerId name now = .ok u →
          u.player.score = 0) := by
  intro playerId name now
  refine ⟨⟨rfl, rfl⟩, fun data => ⟨rfl, ?_, ?_⟩⟩
  · simp only [AppB.joinRoom]
    rcases hL : data.playerLimit with _ | limit
    · simp
    · by_cases hc : limit ≤ data.players.length
      · rw [if_pos (by simpa using hc)]
        simp [hc]
      · rw [if_neg (by simpa using hc)]
        simp [hc]
  · intro u hu
    simp only [AppB.joinRoom] at hu
    split at hu
    · exact Except.noConfusion hu
    · exact congrArg (fun w => w.player.score) (Except.ok.injEq _ _ ▸ hu).symm

/-- C5 amended witness: concrete joins into `roomC5full`. -/
theorem joinRoom_amended_witness :
    AppA.joinRoom (some roomC5full) "z" "carol" 9 =
      .ok { playerKey := "z",
            player := { id := "z", name := "carol", score := 5, ready := false,
                        sittingOut := false, joinedAt := 9 },
            gameStarted := true } :=
  (((joinRoom_amended "z" "carol" 9).2 roomC5full).1).trans (by decide)

/-! ## C10 — joinRoom always starts the game -/

/-- C10: every successful join (either version) writes `gameStarted: true`
unconditionally, so the room record after the write has `gameStarted = true`
whatever it held before — a join into a still-waiting room starts the game
for everyone. -/
theorem joinRoom_sets_gameStarted :
    ∀ (record : Option Room) (playerId name : String) (now : Nat)
      (u : JoinUpdate) (room : Room),
      (AppA.joinRoom record playerId name now = .ok u ∨
       AppB.joinRoom record playerId name now = .ok u) →
      u.gameStarted = true ∧ (applyJoinUpdate room u).gameStarted = true := by
  intro record playerId name now u room h
  have hg : u.gameStarted = true := by
    rcases record with _ | data
    · rcases h with h | h <;> exact Except.noConfusion h
    · rcases h with h | h
      · simp only [AppA.joinRoom] at h
        exact congrArg (fun w => w.gameStarted) (Except.ok.injEq _ _ ▸ h).symm
      · simp only [AppB.joinRoom] at h
        split at h
        · exact Except.noConfusion h
        · exact congrArg (fun w => w.gameStarted) (Except.ok.injEq _ _ ▸ h).symm
  exact ⟨hg, by simpa [applyJoinUpdate] using hg⟩

/-- C10 witness: a concrete version-A join into a waiting room (`roomC1` has
`gameStarted = true` replaced — any prior value gives `true` after). -/
theorem joinRoom_sets_gameStarted_witness :
    (AppA.joinRoom (some roomC5full) "z" "bob" 1 =
        .ok { playerKey := "z",
              player := { id := "z", name := "bob", score := 0, ready := false,
                          sittingOut := false, joinedAt := 1 },
              gameStarted := true } ∨
     AppB.joinRoom (some roomC5full) "z" "bob" 1 =
        .ok { playerKey := "z",
              player := { id := "z", name := "bob", score := 0, ready := false,
                          sittingOut := false, joinedAt := 1 },
              gameStarted := true }) ∧
    ({ playerKey := "z",
       player := { id := "z", name := "bob", score := 0, ready := false,
                   sittingOut := false, joinedAt := 1 },
       gameStarted := true : JoinUpdate }.gameStarted = true ∧
     (applyJoinUpdate roomC1
       { playerKey := "z",
         player := { id := "z", name := "bob", score := 0, ready := false,
                     sittingOut := false, joinedAt := 1 },
         gameStarted := true }).gameStarted = true) :=
  ⟨Or.inl (by decide),
   joinRoom_sets_gameStarted (some roomC5full) "z" "bob" 1 _ roomC1
     (Or.inl (by decide))⟩

/-! ## C8 — failing combines leave local state untouched -/

/-- C8: `combineCards` validates before mutating.  Same-card combines fail
(`InvalidMove`) with the entire state unchanged, for any operation; division
by a card of value 0 fails (`DivisionByZero`) with only the selection
cleared; an unrecognised operation is a full no-op.  In every failure case
the cards, the move history and the undo stack are exactly the pre-state's. -/
theorem combineCards_failure_frame :
    ∀ (toStr : ℚ → String) (now : Nat) (card1 card2 : Card)
      (operation : String) (s : EngineState),
      (card1.id = card2.id →
        combineCards toStr now card1 card2 operation s = (s, .invalidMove)) ∧
      (card1.id ≠ card2.id → operation = "/" → cardValue card2 = 0 →
        combineCards toStr now card1 card2 operation s =
          ({ s with selectedCard := none, selectedOperation := none },
           .divisionByZero)) ∧
      (card1.id ≠ card2.id → operation ≠ "+" → operation ≠ "-" →
        operation ≠ "*" → operation ≠ "/" →
        combineCards toStr now card1 card2 operation s = (s, .unknownOperation)) := by
  intro toStr now card1 card2 operation s
  refine ⟨fun h => by simp [combineCards, h], fun h1 h2 h3 => ?_, fun h1 h2 h3 h4 h5 => ?_⟩
  · subst h2
    simp only [combineCards, if_neg h1]
    rw [if_pos h3]
  · simp only [combineCards, if_neg h1]

/-- C8 witness: dividing an original card by a derived card of value 0. -/
theorem combineCards_failure_frame_witness :
    (("a" : String) ≠ "z" ∧ ("/" : String) = "/" ∧
      cardValue { rank := "0", suit := none, id := "z", isOriginal := false,
                  value := some 0 } = 0) ∧
    (combineCards toStrX 0
        { rank := "A", suit := some "♠", id := "a", isOriginal := true }
        { rank := "0", suit := none, id := "z", isOriginal := false,
          value := some 0 }
        "/" (initialEngineState .single "p" cardsC9) =
      ({ initialEngineState .single "p" cardsC9 with
          selectedCard := none, selectedOperation := none }, .divisionByZero)) :=
  ⟨⟨by decide, rfl, by decide⟩,
   (combineCards_failure_frame toStrX 0
      { rank := "A", suit := some "♠", id := "a", isOriginal := true }
      { rank := "0", suit := none, id := "z", isOriginal := false,
        value := some 0 }
      "/" (initialEngineState .single "p" cardsC9)).2.1
     (by decide) rfl (by decide)⟩

/-! ## C9 — combine/undo round trip -/

/-- Field-level description of a successful commit: the undo entry is pushed,
bookkeeping fields are preserved, the selection is cleared, and whenever the
result does not carry the win flag, the winner, score and the pre-state's
flag are untouched. -/
theorem combineCommit_shape (now : Nat) (card1 card2 : Card) (operation : String)
    (result : ℚ) (displayValue : String) (s : EngineState) :
    (combineCommit now card1 card2 operation result displayValue s).cardHistory
        = s.cardHistory ++ [(s.cards, s.moveHistory)] ∧
    (combineCommit now card1 card2 operation result displayValue s).originalCards
        = s.originalCards ∧
    (combineCommit now card1 card2 operation result displayValue s).gameMode
        = s.gameMode ∧
    (combineCommit now card1 card2 operation result displayValue s).playerId
        = s.playerId ∧
    (combineCommit now card1 card2 operation result displayValue s).selectedCard
        = none ∧
    (combineCommit now card1 card2 operation result displayValue s).selectedOperation
        = none ∧
    ((combineCommit now card1 card2 operation result displayValue s).iWon = false →
      (combineCommit now card1 card2 operation result displayValue s).winner = s.winner ∧
      (combineCommit now card1 card2 operation result displayValue s).singlePlayerScore
          = s.singlePlayerScore ∧
      s.iWon = false) := by
  unfold combineCommit
  dsimp only
  split
  · split
    · split
      · exact ⟨rfl, rfl, rfl, rfl, rfl, rfl, fun h => by simp at h⟩
      · split
        · exact ⟨rfl, rfl, rfl, rfl, rfl, rfl, fun h => by simp at h⟩
        · exact ⟨rfl, rfl, rfl, rfl, rfl, rfl, fun h => ⟨rfl, rfl, h⟩⟩
    · exact ⟨rfl, rfl, rfl, rfl, rfl, rfl, fun h => ⟨rfl, rfl, h⟩⟩
  · exact ⟨rfl, rfl, rfl, rfl, rfl, rfl, fun h => ⟨rfl, rfl, h⟩⟩

/-- A successful commit whose result does not carry the win flag pops back to
the pre-state under `undoLastMove` (and the pre-state's flag was clear). -/
theorem combineCommit_undo (now : Nat) (card1 card2 : Card) (operation : String)
    (result : ℚ) (displayValue : String) (s : EngineState)
    (hW : (combineCommit now card1 card2 operation result displayValue s).iWon = false)
    (h1 : s.selectedCard = none) (h2 : s.selectedOperation = none) :
    undoLastMove (combineCommit now card1 card2 operation result displayValue s) = s ∧
      s.iWon = false := by
  obtain ⟨hch, hoc, hgm, hpid, hsc, hso, hcond⟩ :=
    combineCommit_shape now card1 card2 operation result displayValue s
  obtain ⟨hw, hsp, hiw⟩ := hcond hW
  refine ⟨?_, hiw⟩
  unfold undoLastMove
  rw [hW]
  simp only [Bool.false_eq_true, if_false, hch, List.getLast?_concat,
    List.dropLast_concat]
  rw [hgm, hpid, hoc, hw, hsp, ← h1, ← h2, ← hiw]

/-- A `combineCards` call that reports `.ok` went through the commit path. -/
theorem combineCards_ok_commit (toStr : ℚ → String) (now : Nat)
    (card1 card2 : Card) (operation : String) (s s' : EngineState)
    (h : combineCards toStr now card1 card2 operation s = (s', .ok)) :
    ∃ result displayValue,
      s' = combineCommit now card1 card2 operation result displayValue s := by
  by_cases hid : card1.id = card2.id
  · simp [combineCards, hid] at h
  · simp only [combineCards, if_neg hid] at h
    split at h
    · exact ⟨_, _, (congrArg Prod.fst h).symm⟩
    · exact ⟨_, _, (congrArg Prod.fst h).symm⟩
    · exact ⟨_, _, (congrArg Prod.fst h).symm⟩
    · split at h
      · simp at h
      · exact ⟨_, _, (congrArg Prod.fst h).symm⟩
    · simp at h

/-- A run of all-successful combines whose final state has no win flag is
inverted exactly by as many undos. -/
theorem runCombines_undoN (toStr : ℚ → String) :
    ∀ (steps : List CombineStep) (s sE : EngineState),
      runCombines toStr steps s = some sE → sE.iWon = false →
      s.selectedCard = none → s.selectedOperation = none →
      undoN steps.length sE = s ∧ s.iWon = false := by
  intro steps
  induction steps with
  | nil =>
    intro s sE h hW h1 h2
    simp only [runCombines, Option.some.injEq] at h
    subst h
    exact ⟨rfl, hW⟩
  | cons st rest ih =>
    intro s sE h hW h1 h2
    simp only [runCombines] at h
    rcases hc : combineCards toStr st.now st.card1 st.card2 st.operation s with ⟨s1, oc⟩
    rw [hc] at h
    cases oc with
    | ok =>
      obtain ⟨r, d, hs1⟩ := combineCards_ok_commit _ _ _ _ _ _ _ hc
      obtain ⟨hsc1, hso1⟩ : s1.selectedCard = none ∧ s1.selectedOperation = none := by
        subst hs1
        obtain ⟨_, _, _, _, h5, h6, _⟩ := combineCommit_shape st.now st.card1 st.card2
          st.operation r d s
        exact ⟨h5, h6⟩
      obtain ⟨hundo, hiw1⟩ := ih s1 sE h hW hsc1 hso1
      have hpop : undoLastMove s1 = s ∧ s.iWon = false := by
        subst hs1
        exact combineCommit_undo st.now st.card1 st.card2 st.operation r d s hiw1 h1 h2
      refine ⟨?_, hpop.2⟩
      simp only [List.length_cons, undoN, hundo]
      exact hpop.1
    | invalidMove => exact Option.noConfusion h
    | divisionByZero => exact Option.noConfusion h
    | unknownOperation => exact Option.noConfusion h

unseal Rat.add Rat.mul Rat.inv Rat.sub in
/-- C9 counterexample: three successful combines over `cardsC9` reach 24, the
win flag is set, and undo is then a no-op: three undos do NOT restore the
original four cards, refuting the unconditional round-trip (and the
unconditional "otherwise pops" reading of undo). -/
theorem combine_undo_roundtrip_counterexample :
    (runCombines toStrX stepsC9 (initialEngineState .single "p" cardsC9)).isSome = true ∧
    (runCombines toStrX stepsC9 (initialEngineState .single "p" cardsC9)).map (undoN 3)
      ≠ some (initialEngineState .single "p" cardsC9) := by
  decide

/-- C9 amended: `undoLastMove` is a no-op when the undo stack is empty OR the
win flag is set; otherwise it pops and restores the saved pair exactly.
Consequently `k` successful combines followed by `k` undos restore the
original cards and empty move history exactly, PROVIDED the combines did not
set the win flag (no combine reduced the board to a single card within
`EPSILON` of 24 in a winning position). -/
theorem combine_undo_roundtrip :
    ∀ (toStr : ℚ → String) (mode : GameMode) (playerId : String)
      (cards0 : List Card) (steps : List CombineStep) (sFinal : EngineState),
      runCombines toStr steps (initialEngineState mode playerId cards0) = some sFinal →
      sFinal.iWon = false →
      undoN steps.length sFinal = initialEngineState mode playerId cards0 :=
  fun toStr _mode _playerId _cards0 steps sFinal h hW =>
    (runCombines_undoN toStr steps _ sFinal h hW rfl rfl).1

unseal Rat.add Rat.mul Rat.inv Rat.sub in
/-- C9 amended witness: one successful non-winning combine and one undo over
the concrete `cardsC9`. -/
theorem combine_undo_roundtrip_witness :
    runCombines toStrX (stepsC9.take 1) (initialEngineState .single "p" cardsC9)
        = some sAfterOne ∧
    sAfterOne.iWon = false ∧
    undoN (stepsC9.take 1).length sAfterOne = initialEngineState .single "p" cardsC9 :=
  ⟨by decide, by decide,
   combine_undo_roundtrip toStrX .single "p" cardsC9 (stepsC9.take 1) sAfterOne
     (by decide) (by decide)⟩

/-! ## C6 — fraction formatter -/

/-- For a negative input the while-condition compares a nonnegative absolute
error against the negative relative bound `decimal * tolerance`, so it is
always true (the loop never wants to stop). -/
theorem fracContinue_of_neg (decimal : ℚ) (hd : decimal < 0) (s : FracState) :
    fracContinue decimal s = true := by
  simp only [fracContinue, decide_eq_true_eq]
  calc decimal * TOLERANCE < 0 := by
        apply mul_neg_of_neg_of_pos hd
        norm_num [TOLERANCE]
    _ ≤ |decimal - (s.h1 : ℚ) / (s.k1 : ℚ)| := abs_nonneg _

theorem no_term_of_neg (decimal : ℚ) (hd : decimal < 0) (s : FracState) :
    ¬ ToFractionTerminates decimal s := by
  intro h
  induction h with
  | exit s hC =>
    rw [fracContinue_of_neg decimal hd _] at hC
    exact Bool.noConfusion hC
  | next s hC hT ih => exact ih

unseal Rat.add Rat.mul Rat.inv Rat.sub in
/-- C6 counterexample: the division result `-1/2` (reachable, e.g. from
`(1 - 2) / 2`) is a non-integer input on which the `toFraction` loop never
terminates in exact arithmetic — its exit condition can never hold — so the
formatter does not return a reconstructing integer pair for it.  (In IEEE
floats the same loop escapes through `Infinity` and returns non-finite
"numerators", which is no better.) -/
theorem toFraction_claim_counterexample :
    ¬ ToFractionTerminates (-(1:ℚ)/2) (toFractionInit (-(1:ℚ)/2)) ∧
    toFraction 30 (-(1:ℚ)/2) = none :=
  ⟨no_term_of_neg _ (by norm_num) _, by decide⟩

/-- When the complete quotient `b` is an integer, the iteration that absorbs
it makes `h1/k1` equal to the input exactly, so the loop exits. -/
theorem frac_exit (d : ℚ) (hd : 0 < d) (s : FracState) (hInv : fracInv d s)
    (hint : s.b = (⌊s.b⌋ : ℚ)) : fracContinue d (fracStep s) = false := by
  obtain ⟨hb, heq, hk⟩ := hInv
  have hk1' : 1 ≤ ⌊s.b⌋ * s.k1 + s.k2 := by
    rcases hk with ⟨h0, h1⟩ | ⟨h1, h2, h3⟩
    · rw [h0, h1]; ring_nf; omega
    · have ha : 1 ≤ ⌊s.b⌋ := by
        rw [Int.le_floor]; exact_mod_cast h3
      nlinarith
  have hk0 : ((⌊s.b⌋ * s.k1 + s.k2 : ℤ) : ℚ) ≠ 0 := by
    have : (0:ℚ) < ((⌊s.b⌋ * s.k1 + s.k2 : ℤ) : ℚ) := by exact_mod_cast hk1'
    exact ne_of_gt this
  have heval : d = ((⌊s.b⌋ * s.h1 + s.h2 : ℤ) : ℚ) / ((⌊s.b⌋ * s.k1 + s.k2 : ℤ) : ℚ) := by
    rw [eq_div_iff hk0]
    rw [hint] at heq
    push_cast
    linarith [heq]
  simp only [fracStep, fracContinue, decide_eq_false_iff_not, not_lt]
  rw [← heval, sub_self, abs_zero]
  have htol : (0:ℚ) < TOLERANCE := by norm_num [TOLERANCE]
  positivity

theorem fracStep_b (s : FracState) : (fracStep s).b = (Int.fract s.b)⁻¹ := by
  show 1 / (s.b - (⌊s.b⌋ : ℚ)) = (Int.fract s.b)⁻¹
  rw [Int.self_sub_floor, one_div]

/-- The loop invariant is preserved across an iteration whose complete
quotient is not an integer. -/
theorem frac_step_inv (d : ℚ) (s : FracState) (hInv : fracInv d s)
    (hnint : s.b ≠ (⌊s.b⌋ : ℚ)) : fracInv d (fracStep s) := by
  obtain ⟨hb, heq, hk⟩ := hInv
  have hu : 0 < Int.fract s.b := Int.fract_pos.mpr hnint
  have hu0 : Int.fract s.b ≠ 0 := ne_of_gt hu
  have hb1 : (1:ℚ) < (Int.fract s.b)⁻¹ := by
    rw [one_lt_inv_iff₀]
    exact ⟨hu, Int.fract_lt_one s.b⟩
  refine ⟨?_, ?_, ?_⟩
  · rw [fracStep_b]
    linarith
  · have hsb : s.b = (⌊s.b⌋ : ℚ) + Int.fract s.b := (Int.floor_add_fract s.b).symm
    rw [hsb] at heq
    rw [fracStep_b]
    show d * (((⌊s.b⌋ * s.k1 + s.k2 : ℤ) : ℚ) * (Int.fract s.b)⁻¹ + (s.k1 : ℚ))
        = ((⌊s.b⌋ * s.h1 + s.h2 : ℤ) : ℚ) * (Int.fract s.b)⁻¹ + (s.h1 : ℚ)
    field_simp
    ring_nf
    ring_nf at heq
    linarith [heq]
  · right
    refine ⟨?_, ?_, le_of_lt (by rw [fracStep_b]; exact hb1)⟩
    · show 1 ≤ ⌊s.b⌋ * s.k1 + s.k2
      rcases hk with ⟨h0, h1⟩ | ⟨h1, h2, h3⟩
      · rw [h0, h1]; ring_nf; omega
      · have ha : 1 ≤ ⌊s.b⌋ := by
          rw [Int.le_floor]; exact_mod_cast h3
        nlinarith
    · show 0 ≤ s.k1
      rcases hk with ⟨h0, _⟩ | ⟨h1, _, _⟩
      · omega
      · omega

/-- Whatever pair the loop returns satisfies the (relative) exit bound. -/
theorem toFractionLoop_exit_bound (d : ℚ) :
    ∀ (n : Nat) (s : FracState) (num den : ℤ),
      toFractionLoop d n s = some (num, den) →
      |d - (num : ℚ) / (den : ℚ)| ≤ d * TOLERANCE := by
  intro n
  induction n with
  | zero => intro s num den h; exact Option.noConfusion h
  | succ n ih =>
    intro s num den h
    simp only [toFractionLoop] at h
    split at h
    · exact ih _ num den h
    · rename_i hC
      obtain ⟨h1, h2⟩ := Prod.mk.injEq _ _ _ _ ▸ Option.some.injEq _ _ ▸ h
      subst h1; subst h2
      simpa [fracContinue, decide_eq_true_eq, not_lt] using hC

/-- Fuel one beyond the numerator of the fractional part of the current `b`
suffices: that numerator strictly decreases across non-exiting iterations
(Euclidean descent of the continued-fraction expansion). -/
theorem toFractionLoop_term (d : ℚ) (hd : 0 < d) :
    ∀ (n : Nat) (s : FracState),
      (Int.fract s.b).num.toNat < n → fracInv d s →
      ∃ r, toFractionLoop d n s = some r := by
  intro n
  induction n with
  | zero => intro s hm; omega
  | succ n ih =>
    intro s hm hInv
    by_cases hC : fracContinue d (fracStep s) = true
    · have hnint : s.b ≠ (⌊s.b⌋ : ℚ) := by
        intro h
        rw [frac_exit d hd s hInv h] at hC
        exact Bool.noConfusion hC
      have hInv2 := frac_step_inv d s hInv hnint
      have hupos : 0 < (Int.fract s.b).num := Rat.num_pos.mpr (Int.fract_pos.mpr hnint)
      have hmeas : (Int.fract (fracStep s).b).num < (Int.fract s.b).num := by
        rw [fracStep_b]
        exact Rat.fract_inv_num_lt_num_of_pos (Int.fract_pos.mpr hnint)
      have hm2 : (Int.fract (fracStep s).b).num.toNat < n := by
        have := (Int.toNat_lt_toNat hupos).mpr hmeas
        omega
      obtain ⟨r, hr⟩ := ih (fracStep s) hm2 hInv2
      refine ⟨r, ?_⟩
      simp only [toFractionLoop]
      rw [if_pos hC]
      exact hr
    · refine ⟨((fracStep s).h1, (fracStep s).k1), ?_⟩
      simp only [toFractionLoop]
      rw [if_neg hC]

unseal Rat.add Rat.mul Rat.inv Rat.sub in
/-- C6 amended: for every POSITIVE input `d` the `toFraction` loop terminates
(fuel `toFractionFuel d` suffices) and returns integers whose quotient
reconstructs `d` within the code's relative tolerance `d * 1e-6` (the
comparison the loop actually performs); the round-trip examples are exact:
`7/3 ↦ (7, 3)` and `1/3 ↦ (1, 3)`.  Negative non-integer inputs make the
exit condition unsatisfiable (see the counterexample). -/
theorem toFraction_pos_spec :
    (∀ d : ℚ, 0 < d →
      ∃ num den : ℤ, toFraction (toFractionFuel d) d = some (num, den) ∧
        |d - (num : ℚ) / (den : ℚ)| ≤ d * TOLERANCE) ∧
    toFraction (toFractionFuel ((7:ℚ)/3)) ((7:ℚ)/3) = some (7, 3) ∧
    toFraction (toFractionFuel ((1:ℚ)/3)) ((1:ℚ)/3) = some (1, 3) := by
  refine ⟨?_, ?_, ?_⟩
  · intro d hd
    have hInv0 : fracInv d (toFractionInit d) := by
      refine ⟨hd, ?_, Or.inl ⟨rfl, rfl⟩⟩
      show d * ((((0:ℤ)) : ℚ) * d + (((1:ℤ)) : ℚ)) = (((1:ℤ)) : ℚ) * d + (((0:ℤ)) : ℚ)
      push_cast
      ring
    have hm : (Int.fract (toFractionInit d).b).num.toNat < toFractionFuel d := by
      simp [toFractionInit, toFractionFuel]
    obtain ⟨⟨num, den⟩, hr⟩ := toFractionLoop_term d hd (toFractionFuel d)
      (toFractionInit d) hm hInv0
    exact ⟨num, den, hr, toFractionLoop_exit_bound d _ _ num den hr⟩
  · decide
  · decide

/-- C6 amended witness: the general positive-input statement applied at the
concrete input `7/3`. -/
theorem toFraction_pos_spec_witness :
    (0:ℚ) < (7:ℚ)/3 ∧
    (∃ num den : ℤ, toFraction (toFractionFuel ((7:ℚ)/3)) ((7:ℚ)/3) = some (num, den) ∧
      |(7:ℚ)/3 - (num : ℚ) / (den : ℚ)| ≤ (7:ℚ)/3 * TOLERANCE) :=
  ⟨by norm_num, toFraction_pos_spec.1 ((7:ℚ)/3) (by norm_num)⟩

/-! ## C2 — solver correctness, C7 — generator -/

/-- Length of an index-filtered enumeration: removing the entries at two
distinct indices `i`, `j` (when in range) drops exactly those entries. -/
theorem enumFrom_filter_two_length (i j : Nat) (hij : i ≠ j) :
    ∀ (l : List ℚ) (s : Nat),
      ((List.enumFrom s l).filter fun p => p.1 ≠ i ∧ p.1 ≠ j).length =
        l.length -
          ((if s ≤ i ∧ i < s + l.length then 1 else 0) +
           (if s ≤ j ∧ j < s + l.length then 1 else 0)) := by
  intro l
  induction l with
  | nil => intro s; simp
  | cons x xs ih =>
    intro s
    simp only [List.enumFrom, List.filter_cons, List.length_cons]
    have hrec := ih (s + 1)
    by_cases hsi : s = i
    · subst hsi
      simp only [decide_eq_true_eq]
      rw [if_neg (by simp)]
      rw [hrec]
      split_ifs <;> omega
    · by_cases hsj : s = j
      · subst hsj
        simp only [decide_eq_true_eq]
        rw [if_neg (by simp)]
        rw [hrec]
        split_ifs <;> omega
      · simp only [decide_eq_true_eq]
        rw [if_pos (by exact ⟨hsi, hsj⟩)]
        simp only [List.length_cons]
        rw [hrec]
        split_ifs <;> omega

/-- `removeTwo` over valid distinct indices shortens the list by two. -/
theorem removeTwo_length (l : List ℚ) (i j : Nat) (hi : i < l.length)
    (hj : j < l.length) (hij : i ≠ j) :
    (removeTwo l i j).length = l.length - 2 := by
  have h := enumFrom_filter_two_length i j hij l 0
  simp only [Nat.zero_add] at h
  rw [if_pos (by omega), if_pos (by omega)] at h
  simp only [removeTwo, List.length_map]
  rw [show l.enum = l.enumFrom 0 from rfl]
  omega

/-- The empty list reaches nothing. -/
theorem not_reaches24_nil : ¬ Reaches24 [] := by
  intro h
  cases h with
  | step l i j r hi hj hij hr hrec => simp at hi

/-- The search `solve`, run with fuel equal to the list length (as
`canMake24` does), accepts exactly the lists from which some reduction
sequence reaches 24 within `EPSILON`. -/
theorem solve_eq_iff : ∀ (n : Nat) (l : List ℚ), l.length = n →
    (solve n l = true ↔ Reaches24 l) := by
  intro n
  induction n using Nat.strong_induction_on with
  | _ n ih =>
    intro l hl
    match l with
    | [] =>
      subst hl
      simp only [solve, List.length_nil]
      exact ⟨fun h => Bool.noConfusion h, fun h => absurd h not_reaches24_nil⟩
    | [x] =>
      subst hl
      simp only [List.length_singleton, solve, decide_eq_true_eq]
      constructor
      · exact fun h => Reaches24.base x (by simpa using h)
      · intro h
        cases h with
        | base _ hx => simpa using hx
        | step l i j r hi hj hij hr hrec =>
          simp only [List.length_singleton] at hi hj
          omega
    | a :: b :: rest =>
      subst hl
      constructor
      · intro h
        simp only [solve, List.any_eq_true, List.mem_range, Bool.and_eq_true,
          bne_iff_ne, ne_eq, decide_eq_true_eq] at h
        obtain ⟨i, hi, j, hj, hij, r, hr, hrec⟩ := h
        refine Reaches24.step _ i j r hi hj hij hr ?_
        have hlen : (removeTwo (a :: b :: rest) i j ++ [r]).length
            = rest.length + 1 := by
          rw [List.length_append, removeTwo_length _ _ _ hi hj hij]
          simp only [List.length_cons, List.length_singleton, List.length_nil]
          omega
        exact (ih (rest.length + 1) (by simp) _ hlen).mp hrec
      · intro h
        cases h with
        | step l i j r hi hj hij hr hrec =>
          have hlen : (removeTwo (a :: b :: rest) i j ++ [r]).length
              = rest.length + 1 := by
            rw [List.length_append, removeTwo_length _ _ _ hi hj hij]
            simp only [List.length_cons, List.length_singleton, List.length_nil]
            omega
          simp only [solve, List.any_eq_true, List.mem_range, Bool.and_eq_true,
            bne_iff_ne, ne_eq, decide_eq_true_eq]
          exact ⟨i, hi, j, hj, hij, r, hr,
            (ih (rest.length + 1) (by simp) _ hlen).mpr hrec⟩

theorem mem_of_mem_removeTwo {l : List ℚ} {i j : Nat} {x : ℚ}
    (hx : x ∈ removeTwo l i j) : x ∈ l := by
  have hsub : ((l.enum.filter fun p => p.1 ≠ i ∧ p.1 ≠ j).map Prod.snd).Sublist
      (l.enum.map Prod.snd) := (List.filter_sublist _).map _
  rw [List.enum_map_snd] at hsub
  exact hsub.mem hx

theorem candidateResults_cases {a b r : ℚ} (hr : r ∈ candidateResults a b) :
    r = a + b ∨ r = a - b ∨ r = a * b ∨ (b ≠ 0 ∧ r = a / b) := by
  rcases List.mem_append.mp hr with h | h
  · simp only [List.mem_cons, List.not_mem_nil, or_false] at h
    rcases h with h | h | h
    · exact Or.inl h
    · exact Or.inr (Or.inl h)
    · exact Or.inr (Or.inr (Or.inl h))
  · split at h
    · rename_i hb
      simp only [List.mem_cons, List.not_mem_nil, or_false] at h
      exact Or.inr (Or.inr (Or.inr ⟨hb, h⟩))
    · simp at h

theorem abs_eq_num_div_den (b : ℚ) : |b| = |(b.num : ℚ)| / (b.den : ℚ) := by
  have hden : (0 : ℚ) < b.den := by exact_mod_cast b.den_pos
  rw [← abs_of_pos hden, ← abs_div, Rat.num_div_den]

theorem abs_num_eq (b : ℚ) : |(b.num : ℚ)| = |b| * b.den := by
  have hden : (0 : ℚ) < b.den := by exact_mod_cast b.den_pos
  rw [abs_eq_num_div_den b, div_mul_cancel₀ _ (ne_of_gt hden)]

-- |b| lower bound for nonzero b with den ≤ D

theorem abs_ge_of_den_le {b : ℚ} {D : ℕ} (hb : b ≠ 0) (hD : b.den ≤ D) :
    (1 : ℚ) / D ≤ |b| := by
  have hnum : b.num ≠ 0 := Rat.num_ne_zero.mpr hb
  have hden : (0 : ℚ) < b.den := by exact_mod_cast b.den_pos
  have h1 : (1 : ℚ) ≤ |(b.num : ℚ)| := by
    have h := Int.one_le_abs hnum
    have h2 : ((1:ℤ) : ℚ) ≤ ((|b.num| : ℤ) : ℚ) := by exact_mod_cast h
    simpa [Int.cast_abs] using h2
  rw [abs_eq_num_div_den]
  exact div_le_div₀ (le_trans zero_le_one h1) h1 hden (by exact_mod_cast hD)

-- denominator of a/b bound

theorem div_den_dvd (a b : ℚ) : (a / b).den ∣ a.den * b.num.natAbs := by
  rw [div_eq_mul_inv]
  have h1 : (a * b⁻¹).den ∣ a.den * b⁻¹.den := Rat.mul_den_dvd a b⁻¹
  have h2 : b⁻¹.den ∣ b.num.natAbs := by
    have h := Rat.den_dvd (b.den : ℤ) b.num
    rw [← Rat.inv_def'] at h
    have h3 : ((b⁻¹.den : ℤ)).natAbs ∣ b.num.natAbs := Int.natAbs_dvd_natAbs.mpr h
    simpa using h3
  exact h1.trans (mul_dvd_mul_left a.den h2)

theorem sub_den_dvd (a b : ℚ) : (a - b).den ∣ a.den * b.den := by
  rw [sub_eq_add_neg]
  have h := Rat.add_den_dvd a (-b)
  simpa [Rat.neg_den] using h

theorem num_natAbs_le {b : ℚ} {B D : ℕ} (hb1 : |b| ≤ (B : ℚ)) (hb2 : b.den ≤ D) :
    b.num.natAbs ≤ B * D := by
  have hden : (0 : ℚ) < b.den := by exact_mod_cast b.den_pos
  have h1 : |(b.num : ℚ)| ≤ (B : ℚ) * D := by
    rw [abs_num_eq]
    calc |b| * (b.den : ℚ) ≤ (B : ℚ) * (b.den : ℚ) :=
          mul_le_mul_of_nonneg_right hb1 (le_of_lt hden)
    _ ≤ (B : ℚ) * D :=
          mul_le_mul_of_nonneg_left (by exact_mod_cast hb2) (by positivity)
  have h2 : ((b.num.natAbs : ℤ) : ℚ) ≤ ((B * D : ℕ) : ℚ) := by
    rw [← Int.abs_eq_natAbs, Int.cast_abs]
    push_cast
    exact h1
  exact_mod_cast h2

-- the main bound step

theorem cand_bound {a b r : ℚ} (B D : ℕ)
    (ha1 : |a| ≤ (B : ℚ)) (ha2 : a.den ≤ D)
    (hb1 : |b| ≤ (B : ℚ)) (hb2 : b.den ≤ D)
    (hr : r ∈ candidateResults a b) :
    |r| ≤ ((max (B + B) (max (B * B) (B * D)) : ℕ) : ℚ) ∧
      r.den ≤ max (D * D) (D * (B * D)) := by
  have hBq : (0:ℚ) ≤ (B:ℚ) := by positivity
  have hDpos : 0 < D := lt_of_lt_of_le a.den_pos ha2
  have hM1 : ((B + B : ℕ) : ℚ) ≤ ((max (B + B) (max (B * B) (B * D)) : ℕ) : ℚ) := by
    exact_mod_cast Nat.le_max_left _ _
  have hM2 : ((B * B : ℕ) : ℚ) ≤ ((max (B + B) (max (B * B) (B * D)) : ℕ) : ℚ) := by
    exact_mod_cast le_trans (Nat.le_max_left _ _) (Nat.le_max_right _ _)
  have hM3 : ((B * D : ℕ) : ℚ) ≤ ((max (B + B) (max (B * B) (B * D)) : ℕ) : ℚ) := by
    exact_mod_cast le_trans (Nat.le_max_right _ _) (Nat.le_max_right _ _)
  have hdenDD : a.den * b.den ≤ D * D := Nat.mul_le_mul ha2 hb2
  rcases candidateResults_cases hr with h | h | h | ⟨hb0, h⟩
  · subst h
    constructor
    · calc |a + b| ≤ |a| + |b| := abs_add a b
      _ ≤ (B:ℚ) + B := add_le_add ha1 hb1
      _ = ((B + B : ℕ) : ℚ) := by push_cast; ring
      _ ≤ _ := hM1
    · have hd := Rat.add_den_dvd a b
      have hle := Nat.le_of_dvd (Nat.mul_pos a.den_pos b.den_pos) hd
      exact le_trans (le_trans hle hdenDD) (Nat.le_max_left _ _)
  · subst h
    constructor
    · calc |a - b| ≤ |a| + |b| := abs_sub a b
      _ ≤ (B:ℚ) + B := add_le_add ha1 hb1
      _ = ((B + B : ℕ) : ℚ) := by push_cast; ring
      _ ≤ _ := hM1
    · have hd := sub_den_dvd a b
      have hle := Nat.le_of_dvd (Nat.mul_pos a.den_pos b.den_pos) hd
      exact le_trans (le_trans hle hdenDD) (Nat.le_max_left _ _)
  · subst h
    constructor
    · calc |a * b| = |a| * |b| := abs_mul a b
      _ ≤ (B:ℚ) * B := mul_le_mul ha1 hb1 (abs_nonneg b) hBq
      _ = ((B * B : ℕ) : ℚ) := by push_cast; ring
      _ ≤ _ := hM2
    · have hd := Rat.mul_den_dvd a b
      have hle := Nat.le_of_dvd (Nat.mul_pos a.den_pos b.den_pos) hd
      exact le_trans (le_trans hle hdenDD) (Nat.le_max_left _ _)
  · subst h
    have hblow : (1 : ℚ) / D ≤ |b| := abs_ge_of_den_le hb0 hb2
    constructor
    · have hDq : (0:ℚ) < (D:ℚ) := by exact_mod_cast hDpos
      calc |a / b| = |a| / |b| := abs_div a b
      _ ≤ (B:ℚ) / (1 / D) := div_le_div₀ hBq ha1 (by positivity) hblow
      _ = (B:ℚ) * D := by rw [one_div, div_eq_mul_inv, inv_inv]
      _ = ((B * D : ℕ) : ℚ) := by push_cast; ring
      _ ≤ _ := hM3
    · have hd := div_den_dvd a b
      have hnum0 : 0 < b.num.natAbs :=
        Int.natAbs_pos.mpr (Rat.num_ne_zero.mpr hb0)
      have h1 := Nat.le_of_dvd (Nat.mul_pos a.den_pos hnum0) hd
      have h2 : a.den * b.num.natAbs ≤ D * (B * D) :=
        Nat.mul_le_mul ha2 (num_natAbs_le hb1 hb2)
      exact le_trans (le_trans h1 h2) (Nat.le_max_right _ _)

-- local copies (present in the main development)

theorem getD_mem_of_lt {l : List ℚ} {i : Nat} (h : i < l.length) :
    l.getD i 0 ∈ l := by
  rw [List.getD_eq_getElem l 0 h]
  exact List.getElem_mem h

-- length-1: a value bounded by 16 cannot win

theorem no_win_one (x : ℚ) (hx : |x| ≤ 16) : ¬ Reaches24 [x] := by
  intro h
  cases h with
  | base _ hb =>
    rw [abs_lt] at hb
    have hx' := abs_le.mp hx
    rw [EPSILON] at hb
    have := hb.1
    linarith [hx'.2]
  | step l i j r hi hj hij hr hrec =>
    simp only [List.length_singleton] at hi hj
    omega

theorem no_win_two (l : List ℚ) (hlen : l.length = 2)
    (hl : ∀ x ∈ l, |x| ≤ ((4 : ℕ) : ℚ) ∧ x.den ≤ 2) : ¬ Reaches24 l := by
  intro h
  cases h with
  | base x hb => simp at hlen
  | step l i j r hi hj hij hr hrec =>
    have ha := hl _ (getD_mem_of_lt hi)
    have hb := hl _ (getD_mem_of_lt hj)
    have hbd := cand_bound 4 2 ha.1 ha.2 hb.1 hb.2 hr
    have hr16 : |r| ≤ 16 := by
      have := hbd.1
      norm_num at this
      exact this
    have hlen0 : (removeTwo l i j).length = 0 := by
      rw [removeTwo_length l i j (hlen ▸ hi) (hlen ▸ hj) hij, hlen]
    rw [List.length_eq_zero] at hlen0
    rw [hlen0, List.nil_append] at hrec
    exact no_win_one r hr16 hrec

theorem no_win_three (l : List ℚ) (hlen : l.length = 3)
    (hl : ∀ x ∈ l, |x| ≤ ((2 : ℕ) : ℚ) ∧ x.den ≤ 1) : ¬ Reaches24 l := by
  intro h
  cases h with
  | base x hb => simp at hlen
  | step l i j r hi hj hij hr hrec =>
    have ha := hl _ (getD_mem_of_lt hi)
    have hb := hl _ (getD_mem_of_lt hj)
    have hbd := cand_bound 2 1 ha.1 ha.2 hb.1 hb.2 hr
    refine no_win_two _ ?_ ?_ hrec
    · rw [List.length_append, removeTwo_length l i j hi hj hij, hlen]
      simp
    · intro x hx
      rcases List.mem_append.mp hx with hx | hx
      · have := hl _ (mem_of_mem_removeTwo hx)
        constructor
        · refine le_trans this.1 ?_
          norm_num
        · omega
      · simp only [List.mem_singleton] at hx
        subst hx
        constructor
        · have := hbd.1
          norm_num at this ⊢
          exact this
        · have := hbd.2
          norm_num at this
          exact this

theorem not_reaches24_ones : ¬ Reaches24 [1, 1, 1, 1] := by
  intro h
  cases h with
  | step l i j r hi hj hij hr hrec =>
    simp only [List.length_cons, List.length_nil] at hi hj
    have hmem1 : ∀ x ∈ ([1, 1, 1, 1] : List ℚ), |x| ≤ ((1 : ℕ) : ℚ) ∧ x.den ≤ 1 := by
      intro x hx
      simp only [List.mem_cons, List.not_mem_nil, or_false] at hx
      rcases hx with h | h | h | h <;> subst h <;> norm_num
    have ha := hmem1 _ (getD_mem_of_lt (by simpa using hi))
    have hb := hmem1 _ (getD_mem_of_lt (by simpa using hj))
    have hbd := cand_bound 1 1 ha.1 ha.2 hb.1 hb.2 hr
    refine no_win_three _ ?_ ?_ hrec
    · rw [List.length_append,
        removeTwo_length _ i j (by simpa using hi) (by simpa using hj) hij]
      simp
    · intro x hx
      rcases List.mem_append.mp hx with hx | hx
      · have := hmem1 _ (mem_of_mem_removeTwo hx)
        constructor
        · refine le_trans this.1 ?_
          norm_num
        · omega
      · simp only [List.mem_singleton] at hx
        subst hx
        constructor
        · have := hbd.1
          norm_num at this ⊢
          exact this
        · have := hbd.2
          norm_num at this
          exact this

-- explicit winning derivations

theorem reaches24_4187 : Reaches24 [4, 1, 8, 7] := by
  have h1 : Reaches24 [24] := Reaches24.base 24 (by norm_num [EPSILON])
  have h2 : Reaches24 [1, 24] := by
    refine Reaches24.step _ 1 0 24 (by norm_num) (by norm_num) (by norm_num) ?_ ?_
    · show (24 : ℚ) ∈ candidateResults 24 1
      norm_num [candidateResults]
    · show Reaches24 (removeTwo [1, 24] 1 0 ++ [24])
      have : removeTwo [1, 24] 1 0 ++ [(24:ℚ)] = [24] := by
        norm_num [removeTwo, List.enum, List.enumFrom, List.filter]
      rw [this]
      exact h1
  have h3 : Reaches24 [1, 8, 3] := by
    refine Reaches24.step _ 1 2 24 (by norm_num) (by norm_num) (by norm_num) ?_ ?_
    · show (24 : ℚ) ∈ candidateResults 8 3
      norm_num [candidateResults]
    · have : removeTwo [1, 8, 3] 1 2 ++ [(24:ℚ)] = [1, 24] := by
        norm_num [removeTwo, List.enum, List.enumFrom, List.filter]
      rw [this]
      exact h2
  refine Reaches24.step _ 3 0 3 (by norm_num) (by norm_num) (by norm_num) ?_ ?_
  · show (3 : ℚ) ∈ candidateResults 7 4
    norm_num [candidateResults]
  · have : removeTwo [4, 1, 8, 7] 3 0 ++ [(3:ℚ)] = [1, 8, 3] := by
      norm_num [removeTwo, List.enum, List.enumFrom, List.filter]
    rw [this]
    exact h3

theorem reaches24_3388 : Reaches24 [3, 3, 8, 8] := by
  have h1 : Reaches24 [24] := Reaches24.base 24 (by norm_num [EPSILON])
  have h2 : Reaches24 [8, 1/3] := by
    refine Reaches24.step _ 0 1 24 (by norm_num) (by norm_num) (by norm_num) ?_ ?_
    · show (24 : ℚ) ∈ candidateResults 8 (1/3)
      norm_num [candidateResults]
    · have : removeTwo [8, 1/3] 0 1 ++ [(24:ℚ)] = [24] := by
        norm_num [removeTwo, List.enum, List.enumFrom, List.filter]
      rw [this]
      exact h1
  have h3 : Reaches24 [3, 8, 8/3] := by
    refine Reaches24.step _ 0 2 (1/3) (by norm_num) (by norm_num) (by norm_num) ?_ ?_
    · show (1/3 : ℚ) ∈ candidateResults 3 (8/3)
      norm_num [candidateResults]
    · have : removeTwo [3, 8, 8/3] 0 2 ++ [(1/3:ℚ)] = [8, 1/3] := by
        norm_num [removeTwo, List.enum, List.enumFrom, List.filter]
      rw [this]
      exact h2
  refine Reaches24.step _ 2 1 (8/3) (by norm_num) (by norm_num) (by norm_num) ?_ ?_
  · show (8/3 : ℚ) ∈ candidateResults 8 3
    norm_num [candidateResults]
  · have : removeTwo [3, 3, 8, 8] 2 1 ++ [(8/3:ℚ)] = [3, 8, 8/3] := by
      norm_num [removeTwo, List.enum, List.enumFrom, List.filter]
    rw [this]
    exact h3

theorem canMake24_iff (cards : List Card) :
    canMake24 cards = true ↔
      Reaches24 (cards.map fun c => cardNumericValue c.rank) := by
  have h := solve_eq_iff (cards.map fun c => cardNumericValue c.rank).length
    (cards.map fun c => cardNumericValue c.rank) rfl
  simpa [canMake24] using h

/-- C2: the Solver returns true iff some sequence of binary operations
(`+`, `-`, `*`, `/` with nonzero divisor) over ordered pairs of the card
values reaches a single value within `0.001` of 24; in particular
`(4,1,8,7)` is accepted and `(1,1,1,1)` rejected, agreeing with the
brute-force oracle `Reaches24`. -/
theorem canMake24_spec :
    (∀ cards : List Card,
      (canMake24 cards = true ↔
        Reaches24 (cards.map fun c => cardNumericValue c.rank))) ∧
    canMake24
      [{ rank := "4", suit := some "♠", id := "w4", isOriginal := true },
       { rank := "A", suit := some "♥", id := "w1", isOriginal := true },
       { rank := "8", suit := some "♦", id := "w8", isOriginal := true },
       { rank := "7", suit := some "♣", id := "w7", isOriginal := true }] = true ∧
    canMake24
      [{ rank := "A", suit := some "♠", id := "v1", isOriginal := true },
       { rank := "A", suit := some "♥", id := "v2", isOriginal := true },
       { rank := "A", suit := some "♦", id := "v3", isOriginal := true },
       { rank := "A", suit := some "♣", id := "v4", isOriginal := true }] = false := by
  refine ⟨canMake24_iff, ?_, ?_⟩
  · apply (canMake24_iff _).mpr
    have hmap : (([{ rank := "4", suit := some "♠", id := "w4", isOriginal := true },
       { rank := "A", suit := some "♥", id := "w1", isOriginal := true },
       { rank := "8", suit := some "♦", id := "w8", isOriginal := true },
       { rank := "7", suit := some "♣", id := "w7", isOriginal := true }] : List Card).map
        fun c => cardNumericValue c.rank) = [4, 1, 8, 7] := by rfl
    rw [hmap]
    exact reaches24_4187
  · rw [Bool.eq_false_iff]
    intro h
    have hmap : (([{ rank := "A", suit := some "♠", id := "v1", isOriginal := true },
       { rank := "A", suit := some "♥", id := "v2", isOriginal := true },
       { rank := "A", suit := some "♦", id := "v3", isOriginal := true },
       { rank := "A", suit := some "♣", id := "v4", isOriginal := true }] : List Card).map
        fun c => cardNumericValue c.rank) = [1, 1, 1, 1] := by rfl
    exact not_reaches24_ones (hmap ▸ (canMake24_iff _).mp h)

/-- The fixed fallback hand `3,3,8,8` is itself solver-accepted
(`8 / (3 - 8/3) = 24`). -/
theorem canMake24_fallback : canMake24 FALLBACK_CARDS = true := by
  apply (canMake24_iff _).mpr
  have hmap : (FALLBACK_CARDS.map fun c => cardNumericValue c.rank)
      = [3, 3, 8, 8] := by rfl
  rw [hmap]
  exact reaches24_3388

/-- C7: whatever the random draw stream produces, `generateCards` returns a
solver-accepted hand: either some attempt among the 100 passed the solver
check, or the known-solvable fallback `3,3,8,8` is returned. -/
theorem generateCards_always_solvable :
    ∀ (now : Nat) (draws : Nat → Fin 4 → Draw),
      canMake24 (generateCards now draws) = true := by
  intro now draws
  suffices h : ∀ fuel attempt,
      canMake24 (generateCardsLoop now draws attempt fuel) = true from h _ _
  intro fuel
  induction fuel with
  | zero => intro attempt; exact canMake24_fallback
  | succ n ih =>
    intro attempt
    simp only [generateCardsLoop]
    split
    · rename_i hc
      exact hc
    · exact ih (attempt + 1)
